import Mathlib

/-!
Shallow embedding of the derivatives-output sorter of `slabpreproc`
(`slabpreproc/interfaces/derivatives.py`, class `DerivativesSorter`), the
subsystem specified in the repository's design document.

The Python code is pure string manipulation plus file copies, so we embed
strings as `List Char` wrapped in `String`, and the file system as an
association list from paths to file contents.  Python library functions used
by the code (`os.path.join`, `os.path.splitext`, `os.path.basename`,
`str.replace`, the `in` operator, `shutil.copyfile`, `shutil.copytree`) are
modelled by structurally recursive Lean functions so that all concrete
computations reduce definitionally.
-/

namespace Slabpreproc

/-! ## Character-list utilities -/

/-- Test whether `pat` is an initial segment of `l`
(the semantics of Python str.startswith, used to model matching). -/
def startsWith : List Char → List Char → Bool
  | [], _ => true
  | _ :: _, [] => false
  | c :: cs, d :: ds => c == d && startsWith cs ds

/-- Test whether `pat` occurs as a contiguous segment of `l`
(the semantics of the Python `in` operator on strings). -/
def containsSeg (pat : List Char) : List Char → Bool
  | [] => startsWith pat []
  | c :: cs => startsWith pat (c :: cs) || containsSeg pat cs

/-- Split a character list at every occurrence of a separator character
(the semantics of Python str.split for a one-character separator). -/
def splitOnCh (sep : Char) : List Char → List (List Char)
  | [] => [[]]
  | c :: cs =>
    if c == sep then [] :: splitOnCh sep cs
    else
      match splitOnCh sep cs with
      | [] => [[c]]
      | r :: rs => (c :: r) :: rs

/-- Split `l` at every non-overlapping, left-to-right
occurrence of the non-empty pattern `o :: os`.  The `fuel` argument makes the
recursion structural; `fuel = l.length` always suffices. -/
def splitSegF (o : Char) (os : List Char) : Nat → List Char → List (List Char)
  | _, [] => [[]]
  | 0, l => [l]
  | fuel + 1, c :: cs =>
    if startsWith (o :: os) (c :: cs) then
      [] :: splitSegF o os fuel (cs.drop os.length)
    else
      match splitSegF o os fuel cs with
      | [] => [[c]]
      | r :: rs => (c :: r) :: rs

/-- Interleave `new` between the parts (the semantics of `new.join(parts)`). -/
def joinWith (new : List Char) : List (List Char) → List Char
  | [] => []
  | [r] => r
  | r :: rs => r ++ new ++ joinWith new rs

/-- Python `s.replace('', new)` inserts `new` around every character. -/
def insEvery (new : List Char) : List Char → List Char
  | [] => new
  | c :: cs => new ++ c :: insEvery new cs

/-- Python str.replace: replace every non-overlapping occurrence of `old`
in `l` with `new`, scanning left to right. -/
def pyReplaceL (old new l : List Char) : List Char :=
  match old with
  | [] => insEvery new l
  | o :: os => joinWith new (splitSegF o os l.length l)

/-- Split a key-value segment `key-value` at its first dash
(the convention used by BIDS entity keys such as `sub-01`). -/
def firstDashSplit : List Char → Option (List Char × List Char)
  | [] => none
  | c :: cs =>
    if c == '-' then some ([], cs)
    else (firstDashSplit cs).map (fun p => (c :: p.1, p.2))

/-- Look up the value of entity `key` among key-value segments;
the last occurrence wins, as the specification requires. -/
def lookupKey (key : List Char) (segs : List (List Char)) : Option (List Char) :=
  segs.foldl
    (fun acc seg =>
      match firstDashSplit seg with
      | some (k, v) => if k = key then some v else acc
      | none => acc)
    none

/-! ## String-level wrappers for the Python library functions -/

/-- Python os.path.basename: everything after the last path separator. -/
def baseNameL (l : List Char) : List Char :=
  (l.reverse.takeWhile (fun c => c ≠ '/')).reverse

/-- Python os.path.basename on strings. -/
def baseName (s : String) : String := ⟨baseNameL s.data⟩

/-- Helper for `splitextL`: working on the reversed list, peel off the
reversed extension up to and including the first dot. -/
def splitRevAtDot : List Char → Option (List Char × List Char)
  | [] => none
  | c :: cs =>
    if c == '.' then some ([c], cs)
    else (splitRevAtDot cs).map (fun p => (c :: p.1, p.2))

/-- Python os.path.splitext on a basename: split at the last dot, except that a
name consisting only of leading dots before that dot is not split
(so `.bashrc` yields no extension, as in the CPython genericpath module). -/
def splitextL (l : List Char) : List Char × List Char :=
  match splitRevAtDot l.reverse with
  | none => (l, [])
  | some (re, rs) =>
    let stem := rs.reverse
    if stem.any (fun c => c ≠ '.') then (stem, re.reverse) else (l, [])

/-- Python os.path.splitext on strings. -/
def splitext (s : String) : String × String :=
  let p := splitextL s.data
  (⟨p.1⟩, ⟨p.2⟩)

/-- Python os.path.join for a relative second component. -/
def pjoin (a b : String) : String := a ++ "/" ++ b

/-- The Python test `needle in hay` on strings. -/
def pyContains (needle hay : String) : Bool := containsSeg needle.data hay.data

/-- Python str.replace on strings. -/
def pyReplace (s old new : String) : String := ⟨pyReplaceL old.data new.data s.data⟩

/-- Test whether `s` starts with `pre` (used for path-tree membership). -/
def strStarts (pre s : String) : Bool := startsWith pre.data s.data

/-- Drop the first `n` characters of a string. -/
def strDrop (s : String) (n : Nat) : String := ⟨s.data.drop n⟩

/-! ## Entity parsing

The code calls `bids.layout.parse_file_entities` (the external `pybids`
library, not part of this repository) and reads the keys `subject`,
`session`, `suffix` and `extension`. -/

/-- The entity record extracted from a source filename; a `none` field
corresponds to an absent dictionary key (reading it raises in Python). -/
structure Entities where
  subject : Option String
  session : Option String
  sfx : Option String
  extension : Option String
deriving DecidableEq, Repr

/-- Modelled from the spec: the Entity Parser contract of the external
`pybids` call `bids.layout.parse_file_entities`, which is not part of this
repository's sources.  Per the specification: split the basename on `.`,
recognizing at most the last two dot-delimited components as the extension;
split the remaining naming-key portion on `_`; the final segment is the
suffix, and the earlier segments are `key-value` pairs (last occurrence
wins), with `sub` providing the subject and `ses` the session. -/
def parseEntities (fname : String) : Entities :=
  let bn := baseNameL fname.data
  let parts := splitOnCh '.' bn
  let extNamepart : Option (List Char) × List Char :=
    match parts.reverse with
    | [] => (none, bn)
    | [x] => (none, x)
    | [x, y] => (some ('.' :: x), y)
    | x :: y :: rest => (some ('.' :: (y ++ '.' :: x)), joinWith ['.'] rest.reverse)
  let namepart := extNamepart.2
  let segs := splitOnCh '_' namepart
  { subject := (lookupKey ['s', 'u', 'b'] segs.dropLast).map (fun l => ⟨l⟩)
    session := (lookupKey ['s', 'e', 's'] segs.dropLast).map (fun l => ⟨l⟩)
    sfx := (segs.getLast?).map (fun l => ⟨l⟩)
    extension := extNamepart.1.map (fun l => ⟨l⟩) }

/-! ## The sorter's data model -/

/-- One sorting dictionary, with the keys the code reads
(the keys DataType, NewSuffix and FileType of each sorting dictionary). -/
structure SortDict where
  DataType : String
  NewSuffix : String
  FileType : String
deriving DecidableEq, Repr

/-- The failure modes of the interface run: a missing entity key (Python
raises `KeyError` on the dictionary access) or a failed file copy. -/
inductive SortError where
  | missingEntity
  | ioError
deriving DecidableEq, Repr

/-- The file system: an association list from absolute paths to file
contents; the first binding of a path is its current content. -/
abbrev Fs := List (String × String)

/-- Read a file. -/
def getF : Fs → String → Option String
  | [], _ => none
  | (q, v) :: fs, p => if q = p then some v else getF fs p

/-- Remove every binding of a path. -/
def eraseKey : Fs → String → Fs
  | [], _ => []
  | (q, v) :: fs, p => if q = p then eraseKey fs p else (q, v) :: eraseKey fs p

/-- Write a file, overwriting any existing binding. -/
def setF (fs : Fs) (p v : String) : Fs := (p, v) :: eraseKey fs p

/-- The files lying inside directory `d` (paths extending `d ++ "/"`). -/
def filesUnder (fs : Fs) (d : String) : Fs :=
  fs.filter (fun kv => strStarts (d ++ "/") kv.1)

/-- Python shutil.copyfile: overwrite `dst` with the content of `src`,
failing if `src` does not exist. -/
def copyFileF (fs : Fs) (src dst : String) : Except SortError Fs :=
  match getF fs src with
  | some c => .ok (setF fs dst c)
  | none => .error .ioError

/-- Python shutil.copytree with dirs_exist_ok set to true: copy every file under
`src` to the corresponding path under `dst`, merging into an existing
destination tree. -/
def copyTreeF (fs : Fs) (src dst : String) : Fs :=
  (filesUnder fs src).foldl
    (fun acc kv => setF acc (dst ++ strDrop kv.1 src.length) kv.2) fs

/-! ## The destination-path construction of `DerivativesSorter._run_interface` -/

/-- The extension appended in the suffix-replacing branch:
a txt extension if the rule kind has Text as a substring, else a csv
extension if it has CSV as a substring, else the source image extension. -/
def extFor (sd : SortDict) (old_ext : String) : String :=
  if pyContains "Text" sd.FileType then ".txt"
  else if pyContains "CSV" sd.FileType then ".csv"
  else old_ext

/-- Destination path for one file artifact: the `atlas` branch copies the
artifact's own basename verbatim; otherwise the source stem has its suffix
replaced and a file-kind-dependent extension appended. -/
def fileOutPath (subjsess stem old_suffix old_ext : String) (sd : SortDict)
    (in_pname : String) : String :=
  let dtdir := pjoin subjsess sd.DataType
  if pyContains "atlas" sd.DataType then
    pjoin dtdir (baseName in_pname)
  else
    pjoin dtdir (pyReplace stem old_suffix sd.NewSuffix) ++ extFor sd old_ext

/-- Destination path for one folder artifact. -/
def folderOutPath (subjsess stem old_suffix : String) (sd : SortDict) : String :=
  pjoin (pjoin subjsess sd.DataType) (pyReplace stem old_suffix sd.NewSuffix)

/-- The file loop of `_run_interface`: `zip`-paired artifacts and sorting
dictionaries, each copied with `shutil.copyfile`. -/
def foldCopyFiles (subjsess stem old_suffix old_ext : String) :
    List (String × SortDict) → Fs → Except SortError Fs
  | [], fs => .ok fs
  | (p, sd) :: rest, fs =>
    match copyFileF fs p (fileOutPath subjsess stem old_suffix old_ext sd p) with
    | .error e => .error e
    | .ok fs' => foldCopyFiles subjsess stem old_suffix old_ext rest fs'

/-- The folder loop of `_run_interface`: `zip`-paired folders and sorting
dictionaries, each copied with `shutil.copytree (dirs_exist_ok := true)`.
The auxiliary-file removal that follows the copy in earlier revisions is
commented out in the code (dated 2024-07-25), so no scrub is modelled. -/
def foldCopyTrees (subjsess stem old_suffix : String) :
    List (String × SortDict) → Fs → Fs
  | [], fs => fs
  | (p, sd) :: rest, fs =>
    foldCopyTrees subjsess stem old_suffix rest
      (copyTreeF fs p (folderOutPath subjsess stem old_suffix sd))

/-- Bundle the four entity keys the code reads; `none` when any is absent. -/
def entsOk : Entities → Option (String × String × String × String)
  | ⟨some a, some b, some c, some d⟩ => some (a, b, c, d)
  | _ => none

/-- The inputs of the `DerivativesSorter` interface. -/
structure SorterInputs where
  deriv_dir : String
  source_file : String
  file_list : List String
  file_sort_dicts : List SortDict
  folder_list : List String
  folder_sort_dicts : List SortDict
deriving DecidableEq, Repr

/-- The interface run `DerivativesSorter._run_interface`: parse the entities of the source filename
(raising on a missing key), strip at most two extensions from the source
basename, build the subject/session derivatives directory, then run the file
loop and the folder loop over the positionally `zip`-paired lists. -/
def runInterface (fs : Fs) (inp : SorterInputs) : Except SortError Fs :=
  let source_bname := baseName inp.source_file
  match entsOk (parseEntities inp.source_file) with
  | none => .error .missingEntity
  | some (subj, sess, old_suffix, old_ext) =>
    let stem := (splitextL (splitextL source_bname.data).1).1
    let subjsess := pjoin (pjoin inp.deriv_dir ("sub-" ++ subj)) ("ses-" ++ sess)
    match foldCopyFiles subjsess ⟨stem⟩ old_suffix old_ext
        (inp.file_list.zip inp.file_sort_dicts) fs with
    | .error e => .error e
    | .ok fs1 =>
      .ok (foldCopyTrees subjsess ⟨stem⟩ old_suffix
        (inp.folder_list.zip inp.folder_sort_dicts) fs1)

/-- Read a path out of a run result (`none` when the run failed). -/
def getRun (r : Except SortError Fs) (p : String) : Option String :=
  match r with
  | .ok fs => getF fs p
  | .error _ => none

/-! ## Basic lemmas about the file-system model -/

theorem getF_eraseKey (fs : Fs) (p q : String) :
    getF (eraseKey fs p) q = if p = q then none else getF fs q := by
  induction fs with
  | nil => simp [eraseKey, getF]
  | cons kv fs ih =>
    obtain ⟨k, v⟩ := kv
    by_cases hkp : k = p <;> by_cases hkq : k = q <;> by_cases hpq : p = q <;>
      simp_all [eraseKey, getF]

theorem getF_setF (fs : Fs) (p v q : String) :
    getF (setF fs p v) q = if p = q then some v else getF fs q := by
  by_cases h : p = q <;> simp [setF, getF, getF_eraseKey, h]

theorem getF_setF_self (fs : Fs) (p v : String) :
    getF (setF fs p v) p = some v := by
  simp [getF_setF]

theorem getF_setF_ne (fs : Fs) (p v q : String) (h : p ≠ q) :
    getF (setF fs p v) q = getF fs q := by
  simp [getF_setF, h]

theorem strApp_assoc (a b c : String) : a ++ b ++ c = a ++ (b ++ c) := by
  apply String.ext
  simp [String.data_append, List.append_assoc]

/-! ## Unfolding lemmas for the loops of the interface run -/

theorem copyFileF_ok (fs : Fs) (src dst c : String) (h : getF fs src = some c) :
    copyFileF fs src dst = .ok (setF fs dst c) := by
  unfold copyFileF
  rw [h]

theorem foldCopyFiles_nil (ss st osf oe : String) (fs : Fs) :
    foldCopyFiles ss st osf oe [] fs = .ok fs := rfl

theorem foldCopyFiles_cons_ok (ss st osf oe : String) (p : String) (sd : SortDict)
    (rest : List (String × SortDict)) (fs : Fs) (c : String) (h : getF fs p = some c) :
    foldCopyFiles ss st osf oe ((p, sd) :: rest) fs =
      foldCopyFiles ss st osf oe rest
        (setF fs (fileOutPath ss st osf oe sd p) c) := by
  simp only [foldCopyFiles]
  rw [copyFileF_ok fs p _ c h]

theorem foldCopyTrees_nil (ss st osf : String) (fs : Fs) :
    foldCopyTrees ss st osf [] fs = fs := rfl

theorem foldCopyTrees_cons (ss st osf : String) (p : String) (sd : SortDict)
    (rest : List (String × SortDict)) (fs : Fs) :
    foldCopyTrees ss st osf ((p, sd) :: rest) fs =
      foldCopyTrees ss st osf rest (copyTreeF fs p (folderOutPath ss st osf sd)) := rfl

theorem pjoin_append (a b c : String) : pjoin a b ++ c = pjoin a (b ++ c) := by
  unfold pjoin
  rw [strApp_assoc]

/-! ## C1: end-to-end scenario -/

/-- C1: for every derivatives root, sorting one existing file artifact for
source `sub-01_ses-20220101_task-rest_bold.nii.gz` under the rule
`{DataType: qc, NewSuffix: recon-tmean_bold, FileType: Image}` succeeds and
copies the artifact's content to
`<deriv_root>/sub-01/ses-20220101/qc/sub-01_ses-20220101_task-rest_recon-tmean_bold.nii.gz`
(subject and session taken from the source filename, double extension
preserved). -/
theorem c1_end_to_end (d a c : String) (fs : Fs) (h : getF fs a = some c) :
    ∃ fs', runInterface fs
        { deriv_dir := d
          source_file := "sub-01_ses-20220101_task-rest_bold.nii.gz"
          file_list := [a]
          file_sort_dicts := [⟨"qc", "recon-tmean_bold", "Image"⟩]
          folder_list := []
          folder_sort_dicts := [] } = .ok fs' ∧
      getF fs' (pjoin (pjoin (pjoin (pjoin d "sub-01") "ses-20220101") "qc")
        "sub-01_ses-20220101_task-rest_recon-tmean_bold.nii.gz") = some c := by
  refine ⟨_, ?_, getF_setF_self fs _ c⟩
  have h1 : runInterface fs
      { deriv_dir := d
        source_file := "sub-01_ses-20220101_task-rest_bold.nii.gz"
        file_list := [a]
        file_sort_dicts := [⟨"qc", "recon-tmean_bold", "Image"⟩]
        folder_list := []
        folder_sort_dicts := [] } =
      match foldCopyFiles (pjoin (pjoin d "sub-01") "ses-20220101")
          "sub-01_ses-20220101_task-rest_bold" "bold" ".nii.gz"
          [(a, ⟨"qc", "recon-tmean_bold", "Image"⟩)] fs with
      | .error e => .error e
      | .ok fs1 => .ok fs1 := rfl
  have hpath : fileOutPath (pjoin (pjoin d "sub-01") "ses-20220101")
      "sub-01_ses-20220101_task-rest_bold" "bold" ".nii.gz"
      ⟨"qc", "recon-tmean_bold", "Image"⟩ a =
      pjoin (pjoin (pjoin (pjoin d "sub-01") "ses-20220101") "qc")
        "sub-01_ses-20220101_task-rest_recon-tmean_bold.nii.gz" := by
    show pjoin (pjoin (pjoin (pjoin d "sub-01") "ses-20220101") "qc")
        "sub-01_ses-20220101_task-rest_recon-tmean_bold" ++ ".nii.gz" = _
    rw [pjoin_append]
    rfl
  rw [h1, foldCopyFiles_cons_ok _ _ _ _ _ _ _ _ c h, foldCopyFiles_nil, hpath]

/-- Witness for C1 at a concrete file system. -/
theorem c1_end_to_end_witness :
    ∃ fs', runInterface [("art.nii.gz", "X")]
        { deriv_dir := "/deriv"
          source_file := "sub-01_ses-20220101_task-rest_bold.nii.gz"
          file_list := ["art.nii.gz"]
          file_sort_dicts := [⟨"qc", "recon-tmean_bold", "Image"⟩]
          folder_list := []
          folder_sort_dicts := [] } = .ok fs' ∧
      getF fs' (pjoin (pjoin (pjoin (pjoin "/deriv" "sub-01") "ses-20220101") "qc")
        "sub-01_ses-20220101_task-rest_recon-tmean_bold.nii.gz") = some "X" :=
  c1_end_to_end "/deriv" "art.nii.gz" "X" [("art.nii.gz", "X")] rfl

/-! ## C2: arity handling -/

/-- C2 counterexample: with two file artifacts but only one sorting
dictionary, the run does not fail — it silently copies the first artifact
(so I/O is performed and no arity error of any kind is raised). -/
theorem c2_counterexample :
    (["a1.nii.gz", "a2.nii.gz"] : List String).length ≠
        ([⟨"qc", "recon-tmean_bold", "Image"⟩] : List SortDict).length ∧
      getRun (runInterface [("a1.nii.gz", "X"), ("a2.nii.gz", "Y")]
        { deriv_dir := "/dv"
          source_file := "sub-01_ses-20220101_task-rest_bold.nii.gz"
          file_list := ["a1.nii.gz", "a2.nii.gz"]
          file_sort_dicts := [⟨"qc", "recon-tmean_bold", "Image"⟩]
          folder_list := []
          folder_sort_dicts := [] })
        "/dv/sub-01/ses-20220101/qc/sub-01_ses-20220101_task-rest_recon-tmean_bold.nii.gz"
        = some "X" :=
  ⟨by decide, rfl⟩

theorem zip_append_left_of_length {α β : Type} :
    ∀ (l1 : List α) (l2 : List β) (extra : List α), l1.length = l2.length →
      (l1 ++ extra).zip l2 = l1.zip l2 := by
  intro l1
  induction l1 with
  | nil =>
    intro l2 extra h
    have : l2 = [] := List.eq_nil_of_length_eq_zero h.symm
    simp [this]
  | cons a l1 ih =>
    intro l2 extra h
    cases l2 with
    | nil => simp at h
    | cons b l2 =>
      simp only [List.cons_append, List.zip_cons_cons]
      rw [ih l2 extra (by simpa using h)]

/-- C2 amended: mismatched list lengths are not detected and raise nothing;
the lists are paired positionally by `zip`, so surplus entries in the longer
list are silently ignored and only the paired ones are processed.  In
particular appending surplus artifacts beyond the rule count (and surplus
folders beyond the folder-rule count) leaves the run's result unchanged. -/
theorem c2_amended (fs : Fs) (d src : String) (fl : List String) (fd : List SortDict)
    (gl : List String) (gd : List SortDict) (e1 e2 : List String)
    (h1 : fl.length = fd.length) (h2 : gl.length = gd.length) :
    runInterface fs ⟨d, src, fl ++ e1, fd, gl ++ e2, gd⟩ =
      runInterface fs ⟨d, src, fl, fd, gl, gd⟩ := by
  unfold runInterface
  rw [show (⟨d, src, fl ++ e1, fd, gl ++ e2, gd⟩ : SorterInputs).file_list.zip
        (⟨d, src, fl ++ e1, fd, gl ++ e2, gd⟩ : SorterInputs).file_sort_dicts =
      fl.zip fd from zip_append_left_of_length fl fd e1 h1,
    show (⟨d, src, fl ++ e1, fd, gl ++ e2, gd⟩ : SorterInputs).folder_list.zip
        (⟨d, src, fl ++ e1, fd, gl ++ e2, gd⟩ : SorterInputs).folder_sort_dicts =
      gl.zip gd from zip_append_left_of_length gl gd e2 h2]

/-- Witness for C2 amended at concrete lists. -/
theorem c2_amended_witness :
    runInterface [] ⟨"/dv", "sub-01_ses-1_bold.nii.gz", ["a"] ++ ["b", "c"],
        [⟨"qc", "x_bold", "Image"⟩], [] ++ ["m"], []⟩ =
      runInterface [] ⟨"/dv", "sub-01_ses-1_bold.nii.gz", ["a"],
        [⟨"qc", "x_bold", "Image"⟩], [], []⟩ :=
  c2_amended [] "/dv" "sub-01_ses-1_bold.nii.gz" ["a"] [⟨"qc", "x_bold", "Image"⟩]
    [] [] ["b", "c"] ["m"] rfl rfl

/-! ## C3: selection of the verbatim-copy branch -/

/-- C3 counterexample: a rule with empty `NewSuffix` but `DataType = "qc"`
does not get the verbatim-basename destination — the branch is selected by
the substring test of atlas in DataType, not by an empty `NewSuffix`. -/
theorem c3_counterexample :
    (SortDict.mk "qc" "" "Image").NewSuffix = "" ∧
      fileOutPath "/dv/sub-01/ses-20220101" "sub-01_ses-20220101_task-rest_bold" "bold"
          ".nii.gz" ⟨"qc", "", "Image"⟩ "/work/atlas_T1w_template.nii.gz" ≠
        pjoin (pjoin "/dv/sub-01/ses-20220101" "qc") "atlas_T1w_template.nii.gz" :=
  ⟨rfl, by decide⟩

/-- C3 amended: the verbatim-copy behavior is selected exactly by the string
atlas occurring as a substring of the rule field `DataType` — in that case the
destination is the artifact's own basename under the data-type folder,
whatever `NewSuffix` is; otherwise the destination is independent of the
artifact (never a verbatim copy of its basename), whatever `NewSuffix` is. -/
theorem c3_amended (ss st osf oe : String) (sd : SortDict) (art : String) :
    (pyContains "atlas" sd.DataType = true →
      fileOutPath ss st osf oe sd art = pjoin (pjoin ss sd.DataType) (baseName art)) ∧
    (pyContains "atlas" sd.DataType = false →
      ∀ art', fileOutPath ss st osf oe sd art = fileOutPath ss st osf oe sd art') := by
  constructor
  · intro hA
    simp [fileOutPath, hA]
  · intro hA art'
    simp [fileOutPath, hA]

/-- Witness for C3 amended: both branches at concrete inputs. -/
theorem c3_amended_witness :
    fileOutPath "/d/sub-01/ses-1" "sub-01_ses-1_bold" "bold" ".nii.gz"
        ⟨"atlas", "zzz", "Image"⟩ "/w/tpl_T1w.nii.gz" =
      pjoin (pjoin "/d/sub-01/ses-1" "atlas") (baseName "/w/tpl_T1w.nii.gz") ∧
    fileOutPath "/d/sub-01/ses-1" "sub-01_ses-1_bold" "bold" ".nii.gz"
        ⟨"qc", "", "Image"⟩ "/w/a.nii.gz" =
      fileOutPath "/d/sub-01/ses-1" "sub-01_ses-1_bold" "bold" ".nii.gz"
        ⟨"qc", "", "Image"⟩ "/w/b.nii.gz" :=
  ⟨(c3_amended "/d/sub-01/ses-1" "sub-01_ses-1_bold" "bold" ".nii.gz"
      ⟨"atlas", "zzz", "Image"⟩ "/w/tpl_T1w.nii.gz").1 rfl,
    (c3_amended "/d/sub-01/ses-1" "sub-01_ses-1_bold" "bold" ".nii.gz"
      ⟨"qc", "", "Image"⟩ "/w/a.nii.gz").2 rfl "/w/b.nii.gz"⟩

/-! ## C4: missing required entities -/

theorem entsOk_eq_none (e : Entities) (h : e.subject = none ∨ e.session = none) :
    entsOk e = none := by
  obtain ⟨s1, s2, s3, s4⟩ := e
  rcases h with h | h
  · simp only at h
    subst h
    cases s2 <;> cases s3 <;> cases s4 <;> rfl
  · simp only at h
    subst h
    cases s1 <;> cases s3 <;> cases s4 <;> rfl

/-- C4: when the source filename's parsed entities lack the subject or the
session key, the run fails with the missing-entity error (in the code, the
dictionary access for the subject or session key raises KeyError) before either
copy loop starts, so no file-system write is performed: the error is
returned with the file system untouched. -/
theorem c4_missing_entity (fs : Fs) (inp : SorterInputs)
    (h : (parseEntities inp.source_file).subject = none ∨
         (parseEntities inp.source_file).session = none) :
    runInterface fs inp = .error .missingEntity := by
  unfold runInterface
  rw [entsOk_eq_none _ h]

/-- Witness for C4: a filename with no `ses-<id>` segment. -/
theorem c4_missing_entity_witness :
    runInterface [("a.nii.gz", "X")]
      { deriv_dir := "/dv"
        source_file := "sub-01_task-rest_bold.nii.gz"
        file_list := ["a.nii.gz"]
        file_sort_dicts := [⟨"qc", "recon-tmean_bold", "Image"⟩]
        folder_list := []
        folder_sort_dicts := [] } = .error .missingEntity :=
  c4_missing_entity _ _ (Or.inr rfl)

/-! ## C5: extension mapping -/

theorem extFor_text (dt ns oe : String) : extFor ⟨dt, ns, "Text"⟩ oe = ".txt" := rfl

theorem extFor_csv (dt ns oe : String) : extFor ⟨dt, ns, "CSV"⟩ oe = ".csv" := rfl

theorem extFor_image (dt ns oe : String) : extFor ⟨dt, ns, "Image"⟩ oe = oe := rfl

/-- C5: in the suffix-replacing (non-atlas) branch, a `Text` rule's
destination ends in `.txt`, a `CSV` rule's in `.csv`, and an `Image` rule's
in exactly the source file's (possibly double) extension. -/
theorem c5_extension_mapping (ss st osf oe : String) (sd : SortDict) (art : String)
    (hA : pyContains "atlas" sd.DataType = false) :
    (sd.FileType = "Text" →
      fileOutPath ss st osf oe sd art =
        pjoin (pjoin ss sd.DataType) (pyReplace st osf sd.NewSuffix) ++ ".txt") ∧
    (sd.FileType = "CSV" →
      fileOutPath ss st osf oe sd art =
        pjoin (pjoin ss sd.DataType) (pyReplace st osf sd.NewSuffix) ++ ".csv") ∧
    (sd.FileType = "Image" →
      fileOutPath ss st osf oe sd art =
        pjoin (pjoin ss sd.DataType) (pyReplace st osf sd.NewSuffix) ++ oe) := by
  obtain ⟨dt, ns, ft⟩ := sd
  refine ⟨?_, ?_, ?_⟩ <;> intro hT <;> simp only at hT <;> subst hT <;>
    simp [fileOutPath, hA, extFor_text, extFor_csv, extFor_image]

/-- Witness for C5 at concrete rules of all three file kinds. -/
theorem c5_extension_mapping_witness :
    fileOutPath "/d/sub-01/ses-1" "sub-01_ses-1_bold" "bold" ".nii.gz"
        ⟨"qc", "recon-x_bold", "Text"⟩ "art" =
      pjoin (pjoin "/d/sub-01/ses-1" "qc")
        (pyReplace "sub-01_ses-1_bold" "bold" "recon-x_bold") ++ ".txt" ∧
    fileOutPath "/d/sub-01/ses-1" "qc2" "bold" ".nii.gz"
        ⟨"qc", "recon-motion_pars", "CSV"⟩ "art" =
      pjoin (pjoin "/d/sub-01/ses-1" "qc")
        (pyReplace "qc2" "bold" "recon-motion_pars") ++ ".csv" ∧
    fileOutPath "/d/sub-01/ses-1" "sub-01_ses-1_bold" "bold" ".nii.gz"
        ⟨"preproc", "recon-preproc_bold", "Image"⟩ "art" =
      pjoin (pjoin "/d/sub-01/ses-1" "preproc")
        (pyReplace "sub-01_ses-1_bold" "bold" "recon-preproc_bold") ++ ".nii.gz" :=
  ⟨(c5_extension_mapping "/d/sub-01/ses-1" "sub-01_ses-1_bold" "bold" ".nii.gz"
      ⟨"qc", "recon-x_bold", "Text"⟩ "art" rfl).1 rfl,
    (c5_extension_mapping "/d/sub-01/ses-1" "qc2" "bold" ".nii.gz"
      ⟨"qc", "recon-motion_pars", "CSV"⟩ "art" rfl).2.1 rfl,
    (c5_extension_mapping "/d/sub-01/ses-1" "sub-01_ses-1_bold" "bold" ".nii.gz"
      ⟨"preproc", "recon-preproc_bold", "Image"⟩ "art" rfl).2.2 rfl⟩

/-! ## C9: substitution is a no-op when the suffix is absent from the stem -/

theorem splitSegF_not_found (o : Char) (os : List Char) :
    ∀ (fuel : Nat) (l : List Char), l.length ≤ fuel →
      containsSeg (o :: os) l = false → splitSegF o os fuel l = [l] := by
  intro fuel
  induction fuel with
  | zero =>
    intro l hl _
    have h0 : l = [] := List.eq_nil_of_length_eq_zero (Nat.le_zero.mp hl)
    subst h0
    rfl
  | succ n ih =>
    intro l hl hc
    cases l with
    | nil => rfl
    | cons ch cs =>
      have hsw : startsWith (o :: os) (ch :: cs) = false ∧
          containsSeg (o :: os) cs = false := by
        simpa [containsSeg] using hc
      simp only [splitSegF, hsw.1, Bool.false_eq_true, if_false]
      rw [ih cs (by simp only [List.length_cons] at hl; omega) hsw.2]

theorem pyReplace_not_found (st osf new : String) (h2 : osf ≠ "")
    (h1 : containsSeg osf.data st.data = false) : pyReplace st osf new = st := by
  unfold pyReplace pyReplaceL
  cases hd : osf.data with
  | nil =>
    exact absurd (String.ext (hd.trans rfl)) h2
  | cons o os =>
    rw [hd] at h1
    change String.mk (joinWith new.data (splitSegF o os st.data.length st.data)) = st
    rw [splitSegF_not_found o os st.data.length st.data le_rfl h1]
    rfl

/-- C9: when the parsed suffix does not occur in the extension-stripped
stem, `str.replace` leaves the stem unchanged, so the destination filename
uses the unchanged stem (with the file-kind extension appended), and the
copy of that artifact still completes without error. -/
theorem c9_suffix_noop (ss st osf oe new dt ft art : String)
    (h2 : osf ≠ "") (h1 : containsSeg osf.data st.data = false)
    (hA : pyContains "atlas" dt = false) :
    fileOutPath ss st osf oe ⟨dt, new, ft⟩ art =
      pjoin (pjoin ss dt) st ++ extFor ⟨dt, new, ft⟩ oe ∧
    ∀ (fs : Fs) (c : String), getF fs art = some c →
      copyFileF fs art (fileOutPath ss st osf oe ⟨dt, new, ft⟩ art) =
        .ok (setF fs (pjoin (pjoin ss dt) st ++ extFor ⟨dt, new, ft⟩ oe) c) := by
  have hrep : pyReplace st osf new = st := pyReplace_not_found st osf new h2 h1
  have hfp : fileOutPath ss st osf oe ⟨dt, new, ft⟩ art =
      pjoin (pjoin ss dt) st ++ extFor ⟨dt, new, ft⟩ oe := by
    simp [fileOutPath, hA, hrep]
  exact ⟨hfp, fun fs c h => by rw [hfp]; exact copyFileF_ok fs art _ c h⟩

/-- Witness for C9: suffix `bold` absent from stem `oddstem`. -/
theorem c9_suffix_noop_witness :
    fileOutPath "/d/sub-01/ses-1" "oddstem" "bold" ".nii.gz"
        ⟨"qc", "recon-x", "Image"⟩ "a" =
      pjoin (pjoin "/d/sub-01/ses-1" "qc") "oddstem" ++
        extFor ⟨"qc", "recon-x", "Image"⟩ ".nii.gz" :=
  (c9_suffix_noop "/d/sub-01/ses-1" "oddstem" "bold" ".nii.gz" "recon-x" "qc" "Image" "a"
    (by decide) (by decide) rfl).1

/-! ## C10: the substitution replaces every occurrence of the suffix -/

/-- C10: `str.replace` is an unanchored replace-all — for source
`sub-01_ses-1_acq-bold_bold.nii.gz` (whose suffix string `bold` also occurs
inside the earlier `acq-bold` key-value segment) the rule
`{DataType: preproc, NewSuffix: recon-x_sbref, FileType: Image}` rewrites
both occurrences, producing the destination filename
`sub-01_ses-1_acq-recon-x_sbref_recon-x_sbref.nii.gz`. -/
theorem c10_replace_all (d a c : String) (fs : Fs) (h : getF fs a = some c) :
    ∃ fs', runInterface fs
        { deriv_dir := d
          source_file := "sub-01_ses-1_acq-bold_bold.nii.gz"
          file_list := [a]
          file_sort_dicts := [⟨"preproc", "recon-x_sbref", "Image"⟩]
          folder_list := []
          folder_sort_dicts := [] } = .ok fs' ∧
      getF fs' (pjoin (pjoin (pjoin (pjoin d "sub-01") "ses-1") "preproc")
        "sub-01_ses-1_acq-recon-x_sbref_recon-x_sbref.nii.gz") = some c := by
  refine ⟨_, ?_, getF_setF_self fs _ c⟩
  have h1 : runInterface fs
      { deriv_dir := d
        source_file := "sub-01_ses-1_acq-bold_bold.nii.gz"
        file_list := [a]
        file_sort_dicts := [⟨"preproc", "recon-x_sbref", "Image"⟩]
        folder_list := []
        folder_sort_dicts := [] } =
      match foldCopyFiles (pjoin (pjoin d "sub-01") "ses-1")
          "sub-01_ses-1_acq-bold_bold" "bold" ".nii.gz"
          [(a, ⟨"preproc", "recon-x_sbref", "Image"⟩)] fs with
      | .error e => .error e
      | .ok fs1 => .ok fs1 := rfl
  have hpath : fileOutPath (pjoin (pjoin d "sub-01") "ses-1")
      "sub-01_ses-1_acq-bold_bold" "bold" ".nii.gz"
      ⟨"preproc", "recon-x_sbref", "Image"⟩ a =
      pjoin (pjoin (pjoin (pjoin d "sub-01") "ses-1") "preproc")
        "sub-01_ses-1_acq-recon-x_sbref_recon-x_sbref.nii.gz" := by
    show pjoin (pjoin (pjoin (pjoin d "sub-01") "ses-1") "preproc")
        "sub-01_ses-1_acq-recon-x_sbref_recon-x_sbref" ++ ".nii.gz" = _
    rw [pjoin_append]
    rfl
  rw [h1, foldCopyFiles_cons_ok _ _ _ _ _ _ _ _ c h, foldCopyFiles_nil, hpath]

/-- Witness for C10 at a concrete file system. -/
theorem c10_replace_all_witness :
    ∃ fs', runInterface [("art.nii.gz", "X")]
        { deriv_dir := "/deriv"
          source_file := "sub-01_ses-1_acq-bold_bold.nii.gz"
          file_list := ["art.nii.gz"]
          file_sort_dicts := [⟨"preproc", "recon-x_sbref", "Image"⟩]
          folder_list := []
          folder_sort_dicts := [] } = .ok fs' ∧
      getF fs' (pjoin (pjoin (pjoin (pjoin "/deriv" "sub-01") "ses-1") "preproc")
        "sub-01_ses-1_acq-recon-x_sbref_recon-x_sbref.nii.gz") = some "X" :=
  c10_replace_all "/deriv" "art.nii.gz" "X" [("art.nii.gz", "X")] rfl

/-! ## C6: disjointness of computed destinations -/

theorem splitSegF_ne_nil (o : Char) (os : List Char) (fuel : Nat) (l : List Char) :
    splitSegF o os fuel l ≠ [] := by
  cases fuel with
  | zero => cases l <;> simp [splitSegF]
  | succ n =>
    cases l with
    | nil => simp [splitSegF]
    | cons ch cs =>
      by_cases h : startsWith (o :: os) (ch :: cs) = true
      · simp [splitSegF, h]
      · cases hsp : splitSegF o os n cs <;>
          simp [splitSegF, h, hsp]

theorem two_le_splitSegF_length (o : Char) (os : List Char) :
    ∀ (fuel : Nat) (l : List Char), l.length ≤ fuel →
      containsSeg (o :: os) l = true → 2 ≤ (splitSegF o os fuel l).length := by
  intro fuel
  induction fuel with
  | zero =>
    intro l hl hc
    have h0 : l = [] := List.eq_nil_of_length_eq_zero (Nat.le_zero.mp hl)
    subst h0
    simp [containsSeg, startsWith] at hc
  | succ n ih =>
    intro l hl hc
    cases l with
    | nil => simp [containsSeg, startsWith] at hc
    | cons ch cs =>
      by_cases hsw : startsWith (o :: os) (ch :: cs) = true
      · simp only [splitSegF, hsw, if_true, List.length_cons]
        have := splitSegF_ne_nil o os n (cs.drop os.length)
        have := List.length_pos.mpr this
        omega
      · have hsw' : startsWith (o :: os) (ch :: cs) = false := by
          simpa using hsw
        have hcs : containsSeg (o :: os) cs = true := by
          simpa [containsSeg, hsw'] using hc
        have h2 := ih cs (by simp only [List.length_cons] at hl; omega) hcs
        cases hsp : splitSegF o os n cs with
        | nil => simp [hsp] at h2
        | cons r rs =>
          rw [hsp] at h2
          simp only [splitSegF, hsw', Bool.false_eq_true, if_false, hsp, List.length_cons] at *
          omega

theorem joinWith_len (new : List Char) (rs : List (List Char)) :
    ∀ r : List Char, (joinWith new (r :: rs)).length =
      r.length + ((rs.map List.length).sum + rs.length * new.length) := by
  induction rs with
  | nil => intro r; simp [joinWith]
  | cons s rs ih =>
    intro r
    simp [joinWith, List.length_append, ih s, Nat.succ_mul]
    omega

theorem joinWith_inj (a b : List Char) (parts : List (List Char))
    (hlen : 2 ≤ parts.length) (h : joinWith a parts = joinWith b parts) : a = b := by
  cases parts with
  | nil => simp at hlen
  | cons r parts =>
    cases parts with
    | nil => simp at hlen
    | cons s rs =>
      have hl := congrArg List.length h
      rw [joinWith_len a (s :: rs) r, joinWith_len b (s :: rs) r] at hl
      have hmul : (s :: rs).length * a.length = (s :: rs).length * b.length := by
        simp only [List.length_cons] at hl ⊢
        omega
      have hab : a.length = b.length :=
        Nat.eq_of_mul_eq_mul_left (by simp) hmul
      simp only [joinWith] at h
      rw [List.append_assoc r a _, List.append_assoc r b _] at h
      have h2 := List.append_cancel_left h
      exact (List.append_inj h2 hab).1

theorem pyReplace_inj (st osf a b : String) (hne : osf ≠ "")
    (hocc : containsSeg osf.data st.data = true)
    (h : pyReplace st osf a = pyReplace st osf b) : a = b := by
  unfold pyReplace pyReplaceL at h
  cases hd : osf.data with
  | nil => exact absurd (String.ext (hd.trans rfl)) hne
  | cons o os =>
    rw [hd] at h hocc
    have hdata := congrArg String.data h
    have h2 : joinWith a.data (splitSegF o os st.data.length st.data) =
        joinWith b.data (splitSegF o os st.data.length st.data) := hdata
    exact String.ext (joinWith_inj a.data b.data _
      (two_le_splitSegF_length o os st.data.length st.data le_rfl hocc) h2)

theorem sepSplit_inj : ∀ (u1 u2 v1 v2 : List Char), '/' ∉ u1 → '/' ∉ u2 →
    u1 ++ '/' :: v1 = u2 ++ '/' :: v2 → u1 = u2 ∧ v1 = v2 := by
  intro u1
  induction u1 with
  | nil =>
    intro u2 v1 v2 _ h2 h
    cases u2 with
    | nil => simpa using h
    | cons d u2 =>
      simp only [List.nil_append, List.cons_append, List.cons.injEq] at h
      exact absurd (h.1 ▸ List.mem_cons_self d u2) h2
  | cons c u1 ih =>
    intro u2 v1 v2 h1 h2 h
    cases u2 with
    | nil =>
      simp only [List.nil_append, List.cons_append, List.cons.injEq] at h
      exact absurd (h.1 ▸ List.mem_cons_self c u1) h1
    | cons d u2 =>
      simp only [List.cons_append, List.cons.injEq] at h
      obtain ⟨hu, hv⟩ := ih u2 v1 v2 (fun hm => h1 (List.mem_cons_of_mem c hm))
        (fun hm => h2 (List.mem_cons_of_mem d hm)) h.2
      exact ⟨by rw [h.1, hu], hv⟩

theorem fileOutPath_eq_pjoin (ss st osf oe : String) (sd : SortDict) (art : String) :
    fileOutPath ss st osf oe sd art =
      pjoin (pjoin ss sd.DataType)
        (if pyContains "atlas" sd.DataType then baseName art
         else pyReplace st osf sd.NewSuffix ++ extFor sd oe) := by
  cases hA : pyContains "atlas" sd.DataType <;> simp [fileOutPath, hA, pjoin_append]

theorem pjoin2_data (ss x y : String) :
    (pjoin (pjoin ss x) y).data = ss.data ++ '/' :: (x.data ++ '/' :: y.data) := by
  have hs : ("/" : String).data = ['/'] := rfl
  simp [pjoin, String.data_append, hs, List.append_assoc]

theorem pjoin_right_cancel (A x y : String) (h : pjoin A x = pjoin A y) : x = y := by
  have hdata := congrArg String.data h
  simp only [pjoin, String.data_append, List.append_assoc] at hdata
  exact String.ext (List.append_cancel_left (List.append_cancel_left hdata))

/-- C6 counterexample: two rules with distinct `(DataType, NewSuffix)` pairs
(`atlas`/`a` versus `atlas`/`b`) compute the same destination for artifacts
sharing a basename, because the atlas branch ignores `NewSuffix` entirely. -/
theorem c6_counterexample :
    ((SortDict.mk "atlas" "a" "Image").DataType, (SortDict.mk "atlas" "a" "Image").NewSuffix) ≠
        ((SortDict.mk "atlas" "b" "Image").DataType, (SortDict.mk "atlas" "b" "Image").NewSuffix) ∧
      fileOutPath "/dv/sub-01/ses-1" "sub-01_ses-1_bold" "bold" ".nii.gz"
          ⟨"atlas", "a", "Image"⟩ "/w1/tpl.nii.gz" =
        fileOutPath "/dv/sub-01/ses-1" "sub-01_ses-1_bold" "bold" ".nii.gz"
          ⟨"atlas", "b", "Image"⟩ "/w2/tpl.nii.gz" :=
  ⟨by decide, rfl⟩

/-- C6 amended: distinct `(data_type, new_suffix)` pairs alone do not
guarantee distinct destinations (see the counterexample).  Destinations are
distinct in the two regimes the pairing actually separates: (i) the two
rules' data types differ and are free of path separators — then the
data-type directories differ; (ii) the data types are equal but non-atlas,
the new suffixes differ, the parsed suffix is non-empty and occurs in the
stem, and the two rules' file kinds assign the same extension — then the
destination filenames differ. -/
theorem c6_amended (ss st osf oe : String) (r1 r2 : SortDict) (a1 a2 : String)
    (H : ('/' ∉ r1.DataType.data ∧ '/' ∉ r2.DataType.data ∧ r1.DataType ≠ r2.DataType) ∨
      (r1.DataType = r2.DataType ∧ pyContains "atlas" r1.DataType = false ∧
        r1.NewSuffix ≠ r2.NewSuffix ∧ osf ≠ "" ∧
        containsSeg osf.data st.data = true ∧ extFor r1 oe = extFor r2 oe)) :
    fileOutPath ss st osf oe r1 a1 ≠ fileOutPath ss st osf oe r2 a2 := by
  intro hEq
  rcases H with ⟨hs1, hs2, hne⟩ | ⟨hdt, hA, hns, hosf, hocc, hext⟩
  · rw [fileOutPath_eq_pjoin, fileOutPath_eq_pjoin] at hEq
    have hdata := congrArg String.data hEq
    rw [pjoin2_data, pjoin2_data] at hdata
    have h1 := List.append_cancel_left hdata
    simp only [List.cons.injEq, true_and] at h1
    exact hne (String.ext (sepSplit_inj _ _ _ _ hs1 hs2 h1).1)
  · have hA2 : pyContains "atlas" r2.DataType = false := hdt ▸ hA
    have e1 : fileOutPath ss st osf oe r1 a1 =
        pjoin (pjoin ss r1.DataType) (pyReplace st osf r1.NewSuffix) ++ extFor r1 oe := by
      simp [fileOutPath, hA]
    have e2 : fileOutPath ss st osf oe r2 a2 =
        pjoin (pjoin ss r2.DataType) (pyReplace st osf r2.NewSuffix) ++ extFor r2 oe := by
      simp [fileOutPath, hA2]
    rw [e1, e2, ← hext, ← hdt] at hEq
    have hX : pjoin (pjoin ss r1.DataType) (pyReplace st osf r1.NewSuffix) =
        pjoin (pjoin ss r1.DataType) (pyReplace st osf r2.NewSuffix) := by
      apply String.ext
      have hdata := congrArg String.data hEq
      simp only [String.data_append] at hdata
      exact congrArg String.data (String.ext (List.append_cancel_right hdata) :
        pjoin (pjoin ss r1.DataType) (pyReplace st osf r1.NewSuffix) =
          pjoin (pjoin ss r1.DataType) (pyReplace st osf r2.NewSuffix))
    exact hns (pyReplace_inj st osf _ _ hosf hocc (pjoin_right_cancel _ _ _ hX))

/-- Witness for C6 amended: both regimes at concrete rules. -/
theorem c6_amended_witness :
    fileOutPath "/d/sub-01/ses-1" "sub-01_ses-1_bold" "bold" ".nii.gz"
        ⟨"preproc", "recon-preproc_bold", "Image"⟩ "x" ≠
      fileOutPath "/d/sub-01/ses-1" "sub-01_ses-1_bold" "bold" ".nii.gz"
        ⟨"qc", "recon-preproc_bold", "Image"⟩ "y" ∧
    fileOutPath "/d/sub-01/ses-1" "sub-01_ses-1_bold" "bold" ".nii.gz"
        ⟨"qc", "recon-tmean_bold", "Image"⟩ "x" ≠
      fileOutPath "/d/sub-01/ses-1" "sub-01_ses-1_bold" "bold" ".nii.gz"
        ⟨"qc", "recon-tsd_bold", "Image"⟩ "y" :=
  ⟨c6_amended "/d/sub-01/ses-1" "sub-01_ses-1_bold" "bold" ".nii.gz"
      ⟨"preproc", "recon-preproc_bold", "Image"⟩ ⟨"qc", "recon-preproc_bold", "Image"⟩ "x" "y"
      (Or.inl ⟨by decide, by decide, by decide⟩),
    c6_amended "/d/sub-01/ses-1" "sub-01_ses-1_bold" "bold" ".nii.gz"
      ⟨"qc", "recon-tmean_bold", "Image"⟩ ⟨"qc", "recon-tsd_bold", "Image"⟩ "x" "y"
      (Or.inr ⟨rfl, rfl, by decide, by decide, by decide, rfl⟩)⟩

/-! ## C7: the auxiliary-artifact scrub after a tree copy -/

theorem getF_mem (fs : Fs) (p v : String) (h : getF fs p = some v) : (p, v) ∈ fs := by
  induction fs with
  | nil => simp [getF] at h
  | cons kv fs ih =>
    obtain ⟨q, w⟩ := kv
    by_cases hq : q = p
    · subst hq
      have hw : w = v := by simpa [getF] using h
      subst hw
      exact List.mem_cons_self _ _
    · simp only [getF, if_neg hq] at h
      exact List.mem_cons_of_mem _ (ih h)

theorem startsWith_decomp : ∀ (a l : List Char), startsWith a l = true →
    l = a ++ l.drop a.length := by
  intro a
  induction a with
  | nil => intro l _; simp
  | cons c cs ih =>
    intro l h
    cases l with
    | nil => simp [startsWith] at h
    | cons d ds =>
      simp only [startsWith, Bool.and_eq_true, beq_iff_eq] at h
      obtain ⟨rfl, h2⟩ := h
      simpa using ih ds h2

theorem startsWith_of_append : ∀ (a b l : List Char),
    startsWith (a ++ b) l = true → startsWith a l = true := by
  intro a
  induction a with
  | nil => intro b l _; rfl
  | cons c cs ih =>
    intro b l h
    cases l with
    | nil => simp [startsWith] at h
    | cons d ds =>
      simp only [List.cons_append, startsWith, Bool.and_eq_true] at h ⊢
      exact ⟨h.1, ih b ds h.2⟩

theorem foldl_setF_not_written (f : String × String → String) :
    ∀ (L : Fs) (g : Fs) (x : String), (∀ kv ∈ L, f kv ≠ x) →
      getF (L.foldl (fun acc kv => setF acc (f kv) kv.2) g) x = getF g x := by
  intro L
  induction L with
  | nil => intro g x _; rfl
  | cons kv L ih =>
    intro g x h
    simp only [List.foldl_cons]
    rw [ih _ x (fun q hq => h q (List.mem_cons_of_mem kv hq))]
    exact getF_setF_ne g (f kv) kv.2 x (h kv (List.mem_cons_self _ _))

theorem foldl_setF_mem (f : String × String → String) :
    ∀ (L : Fs) (g : Fs) (p v : String), (p, v) ∈ L → (L.map f).Nodup →
      getF (L.foldl (fun acc kv => setF acc (f kv) kv.2) g) (f (p, v)) = some v := by
  intro L
  induction L with
  | nil => intro g p v h _; simp at h
  | cons kv L ih =>
    intro g p v h hnd
    simp only [List.map_cons, List.nodup_cons] at hnd
    rcases List.mem_cons.mp h with h | h
    · subst h
      simp only [List.foldl_cons]
      rw [foldl_setF_not_written f L _ _
        (fun q hq heq => hnd.1 (by rw [← heq]; exact List.mem_map_of_mem f hq))]
      exact getF_setF_self g _ _
    · simp only [List.foldl_cons]
      exact ih _ p v h hnd.2

/-- C7 counterexample: the folder rule `{melodic, melodic.ica, Folder}`
applied to a source directory containing `report.pklz` (which matches the
scheduler-internal ignore pattern `*.pklz`) leaves that file present in the
destination tree: the removal step is commented out in the code. -/
theorem c7_counterexample :
    getRun (runInterface [("m/ica/comp1.nii", "A"), ("m/ica/report.pklz", "B")]
      { deriv_dir := "/dv"
        source_file := "sub-01_ses-20220101_task-rest_bold.nii.gz"
        file_list := []
        file_sort_dicts := []
        folder_list := ["m/ica"]
        folder_sort_dicts := [⟨"melodic", "melodic.ica", "Folder"⟩] })
      "/dv/sub-01/ses-20220101/melodic/sub-01_ses-20220101_task-rest_melodic.ica/report.pklz"
      = some "B" := rfl

/-- C7 amended: after a folder artifact is copied, no scrub is performed
(the auxiliary-file removal dated 2024-07-25 is disabled in the code): every
file under the source directory — whether or not its name matches the
scheduler-internal ignore patterns `_*` or `*.pklz` — is present at the
corresponding path in the destination directory with identical content. -/
theorem c7_amended (fs : Fs) (src dst p v : String)
    (hmem : getF fs p = some v) (hsub : strStarts (src ++ "/") p = true)
    (hnd : (fs.map Prod.fst).Nodup) :
    getF (copyTreeF fs src dst) (dst ++ strDrop p src.length) = some v := by
  have hpv : (p, v) ∈ filesUnder fs src := by
    refine List.mem_filter.mpr ⟨getF_mem fs p v hmem, hsub⟩
  have hkeys : ((filesUnder fs src).map Prod.fst).Nodup :=
    ((List.filter_sublist fs).map Prod.fst).nodup hnd
  have hinj : ∀ x ∈ (filesUnder fs src).map Prod.fst,
      ∀ y ∈ (filesUnder fs src).map Prod.fst,
      dst ++ strDrop x src.length = dst ++ strDrop y src.length → x = y := by
    intro x hx y hy hxy
    obtain ⟨⟨x0, xv⟩, hx0, rfl⟩ := List.mem_map.mp hx
    obtain ⟨⟨y0, yv⟩, hy0, rfl⟩ := List.mem_map.mp hy
    have hxs : startsWith src.data x0.data = true :=
      startsWith_of_append src.data ['/'] x0.data
        (by simpa [strStarts, String.data_append] using (List.mem_filter.mp hx0).2)
    have hys : startsWith src.data y0.data = true :=
      startsWith_of_append src.data ['/'] y0.data
        (by simpa [strStarts, String.data_append] using (List.mem_filter.mp hy0).2)
    have hdrop : x0.data.drop src.length = y0.data.drop src.length := by
      have := congrArg String.data hxy
      simp only [String.data_append, strDrop] at this
      exact List.append_cancel_left this
    apply String.ext
    rw [startsWith_decomp src.data x0.data hxs, startsWith_decomp src.data y0.data hys]
    show src.data ++ x0.data.drop src.data.length = src.data ++ y0.data.drop src.data.length
    rw [show src.data.length = src.length from rfl]
    rw [hdrop]
  have hndf : ((filesUnder fs src).map (fun kv => dst ++ strDrop kv.1 src.length)).Nodup := by
    have : (filesUnder fs src).map (fun kv => dst ++ strDrop kv.1 src.length) =
        ((filesUnder fs src).map Prod.fst).map (fun x => dst ++ strDrop x src.length) := by
      rw [List.map_map]
      rfl
    rw [this]
    exact hkeys.map_on hinj
  exact foldl_setF_mem (fun kv => dst ++ strDrop kv.1 src.length)
    (filesUnder fs src) fs p v hpv hndf

/-- Witness for C7 amended: the ignore-matching `report.pklz` survives. -/
theorem c7_amended_witness :
    getF (copyTreeF [("m/ica/comp1.nii", "A"), ("m/ica/report.pklz", "B")] "m/ica" "/out")
      ("/out" ++ strDrop "m/ica/report.pklz" "m/ica".length) = some "B" :=
  c7_amended [("m/ica/comp1.nii", "A"), ("m/ica/report.pklz", "B")] "m/ica" "/out"
    "m/ica/report.pklz" "B" rfl rfl (by decide)

/-! ## C8: idempotence of the run

The run is analyzed as a sequence of write operations.  `applyW` replays an
explicit write list; both copy loops are shown to apply a write list that is
determined by the run's reads (source files and source directories), and all
writes land under the derivatives root. -/

/-- Replay a list of writes. -/
def applyW (g : Fs) (W : List (String × String)) : Fs :=
  W.foldl (fun a pv => setF a pv.1 pv.2) g

/-- The last value written to `p` by a write list, if any. -/
def lastWrite : List (String × String) → String → Option String
  | [], _ => none
  | (q, v) :: W, p =>
    match lastWrite W p with
    | some v' => some v'
    | none => if q = p then some v else none

theorem applyW_nil (g : Fs) : applyW g [] = g := rfl

theorem applyW_append (g : Fs) (W1 W2 : List (String × String)) :
    applyW g (W1 ++ W2) = applyW (applyW g W1) W2 :=
  List.foldl_append _ _ _ _

theorem getF_applyW : ∀ (W : List (String × String)) (g : Fs) (p : String),
    getF (applyW g W) p =
      match lastWrite W p with
      | some v => some v
      | none => getF g p := by
  intro W
  induction W with
  | nil => intro g p; rfl
  | cons qv W ih =>
    intro g p
    obtain ⟨q, v⟩ := qv
    show getF (applyW (setF g q v) W) p = _
    rw [ih]
    cases hl : lastWrite W p with
    | some v' => simp [lastWrite, hl]
    | none =>
      by_cases hq : q = p <;> simp [lastWrite, hl, hq, getF_setF]

theorem lastWrite_none (W : List (String × String)) (p : String)
    (h : ∀ pv ∈ W, pv.1 ≠ p) : lastWrite W p = none := by
  induction W with
  | nil => rfl
  | cons qv W ih =>
    obtain ⟨q, v⟩ := qv
    have hq : q ≠ p := h (q, v) (List.mem_cons_self _ _)
    simp only [lastWrite, ih (fun pv hpv => h pv (List.mem_cons_of_mem _ hpv)), hq, if_false]

theorem getF_applyW_not_in (W : List (String × String)) (g : Fs) (p : String)
    (h : ∀ pv ∈ W, pv.1 ≠ p) : getF (applyW g W) p = getF g p := by
  rw [getF_applyW, lastWrite_none W p h]

theorem applyW_idem (W : List (String × String)) (g : Fs) (p : String) :
    getF (applyW (applyW g W) W) p = getF (applyW g W) p := by
  rw [getF_applyW, getF_applyW]
  cases hl : lastWrite W p <;> simp [getF_applyW, hl]

/-! ### Prefix reasoning for paths -/

theorem startsWith_append_self : ∀ (a m : List Char), startsWith a (a ++ m) = true := by
  intro a
  induction a with
  | nil => intro m; rfl
  | cons c cs ih => intro m; simp [startsWith, ih]

theorem startsWith_append_right : ∀ (a l m : List Char),
    startsWith a l = true → startsWith a (l ++ m) = true := by
  intro a
  induction a with
  | nil => intro l m _; rfl
  | cons c cs ih =>
    intro l m h
    cases l with
    | nil => simp [startsWith] at h
    | cons d ds =>
      simp only [startsWith, Bool.and_eq_true] at h ⊢
      exact ⟨h.1, ih ds m h.2⟩

theorem two_prefixes : ∀ (a b l : List Char), startsWith a l = true →
    startsWith b l = true → a.length ≤ b.length → startsWith a b = true := by
  intro a
  induction a with
  | nil => intro b l _ _ _; rfl
  | cons c cs ih =>
    intro b l ha hb hab
    cases b with
    | nil => simp at hab
    | cons d ds =>
      cases l with
      | nil => simp [startsWith] at ha
      | cons e es =>
        simp only [startsWith, Bool.and_eq_true, beq_iff_eq] at ha hb ⊢
        refine ⟨by rw [ha.1, hb.1], ih ds es ha.2 hb.2 (by simpa using hab)⟩

theorem strStarts_append_right (p l m : String) (h : strStarts p l = true) :
    strStarts p (l ++ m) = true := by
  unfold strStarts at h ⊢
  rw [String.data_append]
  exact startsWith_append_right p.data l.data m.data h

theorem strStarts_pjoin (p l m : String) (h : strStarts p l = true) :
    strStarts p (pjoin l m) = true := by
  unfold pjoin
  exact strStarts_append_right _ _ _ (strStarts_append_right _ _ _ h)

theorem strStarts_self_slash (D m : String) :
    strStarts (D ++ "/") ((D ++ "/") ++ m) = true := by
  unfold strStarts
  rw [String.data_append]
  exact startsWith_append_self _ _

theorem not_under_src (D g w : String)
    (h1 : strStarts (D ++ "/") (g ++ "/") = false)
    (h2 : strStarts (g ++ "/") (D ++ "/") = false)
    (hw : strStarts (D ++ "/") w = true) : strStarts (g ++ "/") w = false := by
  by_contra hgw
  have hgw' : strStarts (g ++ "/") w = true := by
    revert hgw
    cases strStarts (g ++ "/") w <;> simp
  rcases le_or_lt (g ++ "/").data.length (D ++ "/").data.length with hle | hlt
  · exact absurd (two_prefixes _ _ w.data hgw' hw hle) (by simpa [strStarts] using h2)
  · exact absurd (two_prefixes _ _ w.data hw hgw' (Nat.le_of_lt hlt))
      (by simpa [strStarts] using h1)

/-! ### Writes under the derivatives root do not disturb the run's reads -/

theorem filesUnder_cons (g q w : String) (fs : Fs) :
    filesUnder ((q, w) :: fs) g =
      if strStarts (g ++ "/") q then (q, w) :: filesUnder fs g else filesUnder fs g := by
  simp only [filesUnder, List.filter_cons]

theorem filesUnder_eraseKey (fs : Fs) (g p : String)
    (h : strStarts (g ++ "/") p = false) :
    filesUnder (eraseKey fs p) g = filesUnder fs g := by
  induction fs with
  | nil => rfl
  | cons qv fs ih =>
    obtain ⟨q, w⟩ := qv
    by_cases hq : q = p
    · subst hq
      rw [show eraseKey ((q, w) :: fs) q = eraseKey fs q from by simp [eraseKey]]
      rw [ih, filesUnder_cons]
      simp [h]
    · rw [show eraseKey ((q, w) :: fs) p = (q, w) :: eraseKey fs p from by
        simp [eraseKey, hq]]
      rw [filesUnder_cons, filesUnder_cons, ih]

theorem filesUnder_setF (fs : Fs) (g p v : String)
    (h : strStarts (g ++ "/") p = false) :
    filesUnder (setF fs p v) g = filesUnder fs g := by
  unfold setF
  rw [filesUnder_cons, filesUnder_eraseKey fs g p h]
  simp [h]

theorem filesUnder_applyW : ∀ (W : List (String × String)) (fs : Fs) (g : String),
    (∀ pv ∈ W, strStarts (g ++ "/") pv.1 = false) →
    filesUnder (applyW fs W) g = filesUnder fs g := by
  intro W
  induction W with
  | nil => intro fs g _; rfl
  | cons pv W ih =>
    intro fs g h
    obtain ⟨p, v⟩ := pv
    show filesUnder (applyW (setF fs p v) W) g = filesUnder fs g
    rw [ih (setF fs p v) g (fun qv hqv => h qv (List.mem_cons_of_mem _ hqv))]
    exact filesUnder_setF fs g p v (h (p, v) (List.mem_cons_self _ _))

/-- The write operations of one tree copy. -/
def treeOps (L : Fs) (src dst : String) : List (String × String) :=
  L.map (fun kv => (dst ++ strDrop kv.1 src.length, kv.2))

theorem copyTreeF_eq_applyW (fs : Fs) (src dst : String) :
    copyTreeF fs src dst = applyW fs (treeOps (filesUnder fs src) src dst) := by
  unfold copyTreeF applyW treeOps
  rw [List.foldl_map]

/-! ### All destinations land under the derivatives root -/

theorem fileOutPath_under (D x y st osf oe : String) (sd : SortDict) (art : String) :
    strStarts (D ++ "/") (fileOutPath (pjoin (pjoin D x) y) st osf oe sd art) = true := by
  rw [fileOutPath_eq_pjoin]
  apply strStarts_pjoin
  apply strStarts_pjoin
  apply strStarts_pjoin
  exact strStarts_self_slash D x

theorem folderOutPath_under (D x y st osf : String) (sd : SortDict) :
    strStarts (D ++ "/") (folderOutPath (pjoin (pjoin D x) y) st osf sd) = true := by
  unfold folderOutPath
  apply strStarts_pjoin
  apply strStarts_pjoin
  apply strStarts_pjoin
  exact strStarts_self_slash D x

/-! ### The two copy loops apply a write list determined by their reads -/

theorem foldCopyFiles_sim (ss st osf oe D : String)
    (hw : ∀ (sd : SortDict) (art : String),
      strStarts (D ++ "/") (fileOutPath ss st osf oe sd art) = true)
    (fsA fsB : Fs) :
    ∀ (prs : List (String × SortDict)) (W0 : List (String × String)),
      (∀ pv ∈ W0, strStarts (D ++ "/") pv.1 = true) →
      (∀ pr ∈ prs, strStarts (D ++ "/") pr.1 = false ∧
        getF fsA pr.1 = getF fsB pr.1 ∧ (getF fsA pr.1).isSome = true) →
      ∃ W1, (∀ pv ∈ W1, strStarts (D ++ "/") pv.1 = true) ∧
        foldCopyFiles ss st osf oe prs (applyW fsA W0) = .ok (applyW fsA W1) ∧
        foldCopyFiles ss st osf oe prs (applyW fsB W0) = .ok (applyW fsB W1) := by
  intro prs
  induction prs with
  | nil =>
    intro W0 hW0 _
    exact ⟨W0, hW0, by rw [foldCopyFiles_nil], by rw [foldCopyFiles_nil]⟩
  | cons pr prs ih =>
    intro W0 hW0 hprs
    obtain ⟨p, sd⟩ := pr
    obtain ⟨hout, heq, hsome⟩ := hprs (p, sd) (List.mem_cons_self _ _)
    obtain ⟨c, hc⟩ := Option.isSome_iff_exists.mp hsome
    have hcB : getF fsB p = some c := heq.symm.trans hc
    have hnotW0 : ∀ pv ∈ W0, pv.1 ≠ p := by
      intro pv hpv hEq
      have h1 := hW0 pv hpv
      rw [hEq] at h1
      rw [h1] at hout
      cases hout
    have hrA : getF (applyW fsA W0) p = some c := by
      rw [getF_applyW_not_in W0 fsA p hnotW0]
      exact hc
    have hrB : getF (applyW fsB W0) p = some c := by
      rw [getF_applyW_not_in W0 fsB p hnotW0]
      exact hcB
    have hW0' : ∀ pv ∈ W0 ++ [(fileOutPath ss st osf oe sd p, c)],
        strStarts (D ++ "/") pv.1 = true := by
      intro pv hpv
      rcases List.mem_append.mp hpv with h | h
      · exact hW0 pv h
      · rw [List.mem_singleton.mp h]
        exact hw sd p
    obtain ⟨W1, hW1, hA, hB⟩ := ih (W0 ++ [(fileOutPath ss st osf oe sd p, c)]) hW0'
      (fun pr hpr => hprs pr (List.mem_cons_of_mem _ hpr))
    refine ⟨W1, hW1, ?_, ?_⟩
    · rw [foldCopyFiles_cons_ok ss st osf oe p sd prs (applyW fsA W0) c hrA]
      rw [show setF (applyW fsA W0) (fileOutPath ss st osf oe sd p) c =
          applyW fsA (W0 ++ [(fileOutPath ss st osf oe sd p, c)]) from by
        rw [applyW_append]; rfl]
      exact hA
    · rw [foldCopyFiles_cons_ok ss st osf oe p sd prs (applyW fsB W0) c hrB]
      rw [show setF (applyW fsB W0) (fileOutPath ss st osf oe sd p) c =
          applyW fsB (W0 ++ [(fileOutPath ss st osf oe sd p, c)]) from by
        rw [applyW_append]; rfl]
      exact hB

theorem foldCopyTrees_sim (ss st osf D : String)
    (hw : ∀ sd : SortDict, strStarts (D ++ "/") (folderOutPath ss st osf sd) = true)
    (fsA fsB : Fs) :
    ∀ (prs : List (String × SortDict)) (W0 : List (String × String)),
      (∀ pv ∈ W0, strStarts (D ++ "/") pv.1 = true) →
      (∀ pr ∈ prs, (strStarts (D ++ "/") (pr.1 ++ "/") = false ∧
          strStarts (pr.1 ++ "/") (D ++ "/") = false) ∧
        filesUnder fsA pr.1 = filesUnder fsB pr.1) →
      ∃ W1, (∀ pv ∈ W1, strStarts (D ++ "/") pv.1 = true) ∧
        foldCopyTrees ss st osf prs (applyW fsA W0) = applyW fsA W1 ∧
        foldCopyTrees ss st osf prs (applyW fsB W0) = applyW fsB W1 := by
  intro prs
  induction prs with
  | nil => intro W0 hW0 _; exact ⟨W0, hW0, rfl, rfl⟩
  | cons pr prs ih =>
    intro W0 hW0 hprs
    obtain ⟨g, sd⟩ := pr
    obtain ⟨⟨hng, hgn⟩, hfeq⟩ := hprs (g, sd) (List.mem_cons_self _ _)
    have hGW0 : ∀ pv ∈ W0, strStarts (g ++ "/") pv.1 = false :=
      fun pv hpv => not_under_src D g pv.1 hng hgn (hW0 pv hpv)
    have hFA : filesUnder (applyW fsA W0) g = filesUnder fsA g :=
      filesUnder_applyW W0 fsA g hGW0
    have hFB : filesUnder (applyW fsB W0) g = filesUnder fsB g :=
      filesUnder_applyW W0 fsB g hGW0
    have hW0' : ∀ pv ∈ W0 ++ treeOps (filesUnder fsA g) g (folderOutPath ss st osf sd),
        strStarts (D ++ "/") pv.1 = true := by
      intro pv hpv
      rcases List.mem_append.mp hpv with h | h
      · exact hW0 pv h
      · obtain ⟨kv, _, rfl⟩ := List.mem_map.mp h
        exact strStarts_append_right _ _ _ (hw sd)
    obtain ⟨W1, hW1, hA, hB⟩ :=
      ih (W0 ++ treeOps (filesUnder fsA g) g (folderOutPath ss st osf sd)) hW0'
        (fun pr hpr => hprs pr (List.mem_cons_of_mem _ hpr))
    refine ⟨W1, hW1, ?_, ?_⟩
    · rw [foldCopyTrees_cons, copyTreeF_eq_applyW, hFA, ← applyW_append]
      exact hA
    · rw [foldCopyTrees_cons, copyTreeF_eq_applyW, hFB, ← hfeq, ← applyW_append]
      exact hB

theorem runInterface_ok_of (fs : Fs) (inp : SorterInputs) (subj sess osf oext : String)
    (fs1 : Fs)
    (hE : entsOk (parseEntities inp.source_file) = some (subj, sess, osf, oext))
    (hf : foldCopyFiles (pjoin (pjoin inp.deriv_dir ("sub-" ++ subj)) ("ses-" ++ sess))
        ⟨(splitextL (splitextL (baseName inp.source_file).data).1).1⟩ osf oext
        (inp.file_list.zip inp.file_sort_dicts) fs = .ok fs1) :
    runInterface fs inp = .ok (foldCopyTrees
        (pjoin (pjoin inp.deriv_dir ("sub-" ++ subj)) ("ses-" ++ sess))
        ⟨(splitextL (splitextL (baseName inp.source_file).data).1).1⟩ osf
        (inp.folder_list.zip inp.folder_sort_dicts) fs1) := by
  have h1 : runInterface fs inp =
      match foldCopyFiles (pjoin (pjoin inp.deriv_dir ("sub-" ++ subj)) ("ses-" ++ sess))
          ⟨(splitextL (splitextL (baseName inp.source_file).data).1).1⟩ osf oext
          (inp.file_list.zip inp.file_sort_dicts) fs with
      | .error e => .error e
      | .ok fs1 => .ok (foldCopyTrees
          (pjoin (pjoin inp.deriv_dir ("sub-" ++ subj)) ("ses-" ++ sess))
          ⟨(splitextL (splitextL (baseName inp.source_file).data).1).1⟩ osf
          (inp.folder_list.zip inp.folder_sort_dicts) fs1) := by
    unfold runInterface
    rw [hE]
  rw [h1, hf]

theorem runInterface_err_of (fs : Fs) (inp : SorterInputs)
    (hE : entsOk (parseEntities inp.source_file) = none) :
    runInterface fs inp = .error .missingEntity := by
  unfold runInterface
  rw [hE]

theorem runInterface_sim (inp : SorterInputs) (subj sess osf oext : String)
    (hE : entsOk (parseEntities inp.source_file) = some (subj, sess, osf, oext))
    (fsA fsB : Fs)
    (hfile : ∀ s ∈ inp.file_list, strStarts (inp.deriv_dir ++ "/") s = false ∧
      getF fsA s = getF fsB s ∧ (getF fsA s).isSome = true)
    (hfold : ∀ g ∈ inp.folder_list,
      (strStarts (inp.deriv_dir ++ "/") (g ++ "/") = false ∧
        strStarts (g ++ "/") (inp.deriv_dir ++ "/") = false) ∧
      filesUnder fsA g = filesUnder fsB g) :
    ∃ W, (∀ pv ∈ W, strStarts (inp.deriv_dir ++ "/") pv.1 = true) ∧
      runInterface fsA inp = .ok (applyW fsA W) ∧
      runInterface fsB inp = .ok (applyW fsB W) := by
  obtain ⟨W1, hW1, hA1, hB1⟩ := foldCopyFiles_sim
    (pjoin (pjoin inp.deriv_dir ("sub-" ++ subj)) ("ses-" ++ sess))
    ⟨(splitextL (splitextL (baseName inp.source_file).data).1).1⟩ osf oext inp.deriv_dir
    (fun sd art => fileOutPath_under inp.deriv_dir ("sub-" ++ subj) ("ses-" ++ sess)
      _ osf oext sd art)
    fsA fsB (inp.file_list.zip inp.file_sort_dicts) []
    (fun pv hpv => absurd hpv (List.not_mem_nil pv))
    (by rintro ⟨p, sd⟩ hpr; exact hfile p (List.of_mem_zip hpr).1)
  rw [applyW_nil] at hA1 hB1
  obtain ⟨W, hW, hA2, hB2⟩ := foldCopyTrees_sim
    (pjoin (pjoin inp.deriv_dir ("sub-" ++ subj)) ("ses-" ++ sess))
    ⟨(splitextL (splitextL (baseName inp.source_file).data).1).1⟩ osf inp.deriv_dir
    (fun sd => folderOutPath_under inp.deriv_dir ("sub-" ++ subj) ("ses-" ++ sess)
      _ osf sd)
    fsA fsB (inp.folder_list.zip inp.folder_sort_dicts) W1 hW1
    (by rintro ⟨g, sd⟩ hpr; exact hfold g (List.of_mem_zip hpr).1)
  exact ⟨W, hW,
    (runInterface_ok_of fsA inp subj sess osf oext _ hE hA1).trans
      (congrArg Except.ok hA2),
    (runInterface_ok_of fsB inp subj sess osf oext _ hE hB1).trans
      (congrArg Except.ok hB2)⟩

/-- C8: rerunning the sorter with identical inputs is safe and reproduces a
byte-identical destination tree.  Hypotheses: every file artifact lies
outside the derivatives root and exists, and every folder artifact directory
neither contains nor is contained in the derivatives root.  Then a first
successful run can be rerun; the second run succeeds (each file copy
overwrites its destination in place, each tree copy merges into the existing
destination directory), and the resulting file system agrees with the first
run's result at every path. -/
theorem c8_idempotent (fs fs1 : Fs) (inp : SorterInputs)
    (hfile : ∀ s ∈ inp.file_list, strStarts (inp.deriv_dir ++ "/") s = false ∧
      (getF fs s).isSome = true)
    (hfold : ∀ g ∈ inp.folder_list,
      strStarts (inp.deriv_dir ++ "/") (g ++ "/") = false ∧
      strStarts (g ++ "/") (inp.deriv_dir ++ "/") = false)
    (h1 : runInterface fs inp = .ok fs1) :
    ∃ fs2, runInterface fs1 inp = .ok fs2 ∧ ∀ p, getF fs2 p = getF fs1 p := by
  cases hE : entsOk (parseEntities inp.source_file) with
  | none =>
    rw [runInterface_err_of fs inp hE] at h1
    cases h1
  | some es =>
    obtain ⟨subj, sess, osf, oext⟩ := es
    obtain ⟨W1, hW1u, hrun1, _⟩ := runInterface_sim inp subj sess osf oext hE fs fs
      (fun s hs => ⟨(hfile s hs).1, rfl, (hfile s hs).2⟩)
      (fun g hg => ⟨hfold g hg, rfl⟩)
    have hfs1 : fs1 = applyW fs W1 := Except.ok.inj (h1.symm.trans hrun1)
    have hreads : ∀ s ∈ inp.file_list, getF fs s = getF fs1 s := by
      intro s hs
      rw [hfs1]
      refine (getF_applyW_not_in W1 fs s ?_).symm
      intro pv hpv hEq
      have hb := hW1u pv hpv
      rw [hEq] at hb
      exact absurd hb (by simp [(hfile s hs).1])
    have hfu : ∀ g ∈ inp.folder_list, filesUnder fs g = filesUnder fs1 g := by
      intro g hg
      rw [hfs1]
      exact (filesUnder_applyW W1 fs g (fun pv hpv =>
        not_under_src inp.deriv_dir g pv.1 (hfold g hg).1 (hfold g hg).2
          (hW1u pv hpv))).symm
    obtain ⟨W, hWu, hA, hB⟩ := runInterface_sim inp subj sess osf oext hE fs fs1
      (fun s hs => ⟨(hfile s hs).1, hreads s hs, (hfile s hs).2⟩)
      (fun g hg => ⟨hfold g hg, hfu g hg⟩)
    have hfsW : applyW fs W = fs1 := (Except.ok.inj (h1.symm.trans hA)).symm
    refine ⟨applyW fs1 W, hB, ?_⟩
    intro p
    rw [← hfsW]
    exact applyW_idem W fs p

/-- Witness for C8: one file rule and one folder rule at a concrete state. -/
theorem c8_idempotent_witness :
    ∃ fs2, runInterface
        [("/dv/sub-01/ses-1/melodic/sub-01_ses-1_melodic.ica/f.nii", "A"),
         ("/dv/sub-01/ses-1/qc/sub-01_ses-1_recon-tmean_bold.nii.gz", "X"),
         ("a.nii.gz", "X"), ("m/ica/f.nii", "A")]
        { deriv_dir := "/dv"
          source_file := "sub-01_ses-1_bold.nii.gz"
          file_list := ["a.nii.gz"]
          file_sort_dicts := [⟨"qc", "recon-tmean_bold", "Image"⟩]
          folder_list := ["m/ica"]
          folder_sort_dicts := [⟨"melodic", "melodic.ica", "Folder"⟩] } = .ok fs2 ∧
      ∀ p, getF fs2 p =
        getF [("/dv/sub-01/ses-1/melodic/sub-01_ses-1_melodic.ica/f.nii", "A"),
          ("/dv/sub-01/ses-1/qc/sub-01_ses-1_recon-tmean_bold.nii.gz", "X"),
          ("a.nii.gz", "X"), ("m/ica/f.nii", "A")] p :=
  c8_idempotent [("a.nii.gz", "X"), ("m/ica/f.nii", "A")]
    [("/dv/sub-01/ses-1/melodic/sub-01_ses-1_melodic.ica/f.nii", "A"),
     ("/dv/sub-01/ses-1/qc/sub-01_ses-1_recon-tmean_bold.nii.gz", "X"),
     ("a.nii.gz", "X"), ("m/ica/f.nii", "A")]
    { deriv_dir := "/dv"
      source_file := "sub-01_ses-1_bold.nii.gz"
      file_list := ["a.nii.gz"]
      file_sort_dicts := [⟨"qc", "recon-tmean_bold", "Image"⟩]
      folder_list := ["m/ica"]
      folder_sort_dicts := [⟨"melodic", "melodic.ica", "Folder"⟩] }
    (by decide) (by decide) rfl

end Slabpreproc
